import Mathlib

/-!
# Verification of the record-classification pipeline

Shallow embedding of the spreadsheet record-classification pipeline
(field-pattern matching, column detection, record extraction, age banding,
report assembly, highlighting) and proofs of the specification claims.

Cell values are modelled as `List Char`; a table is a list of columns, each a
list of optional cells (`none` = missing/NaN).  Regular-expression searches in
the source are fixed-shape patterns, embedded as explicit leftmost scans.
-/

/-- Coerce a string literal to the `List Char` representation used throughout. -/
def S (s : String) : List Char := s.data

/-- ASCII digit test (`\d` in the source patterns). -/
def isDigitC (c : Char) : Bool := 48 ≤ c.toNat && c.toNat ≤ 57

/-- Whitespace characters removed by Python's `str.strip()`. -/
def isPySpace (c : Char) : Bool :=
  c = ' ' || c = '\t' || c = '\n' || c = '\r' || c = Char.ofNat 11 || c = Char.ofNat 12

/-- Python `str.strip()`: drop leading and trailing whitespace. -/
def pyStrip (l : List Char) : List Char :=
  ((l.dropWhile isPySpace).reverse.dropWhile isPySpace).reverse

/-- CJK ideograph test (`[一-龥]`). -/
def isCJK (c : Char) : Bool := 0x4e00 ≤ c.toNat && c.toNat ≤ 0x9fa5

/-- Does the phone pattern `1[3-9]\d{9}` match at the head of the list?
(`re.search` has no anchors, so a match needs no digit boundaries around it.) -/
def phoneAt : List Char → Bool
  | c :: d :: rest =>
      c = '1' && 51 ≤ d.toNat && d.toNat ≤ 57 && 9 ≤ rest.length && (rest.take 9).all isDigitC
  | _ => false

/-- Leftmost search for the phone pattern: the embedded `re.search(r'1[3-9]\d{9}', s)`,
returning the 11 matched characters. -/
def searchPhone : List Char → Option (List Char)
  | [] => none
  | c :: rest =>
      if phoneAt (c :: rest) then some ((c :: rest).take 11) else searchPhone rest

/-- `clean_phone`: strip the raw text, return the first phone-pattern match, else empty. -/
def clean_phone (raw : List Char) : List Char :=
  match searchPhone (pyStrip raw) with
  | some m => m
  | none => []

/-- Does the 18-character ID pattern
`[1-9]\d{5}(19|20)\d{2}(0[1-9]|1[0-2])(0[1-9]|[12]\d|3[01])\d{3}T`
match at the head of the list?  `T` is the last-character test: `[\dX]` in
`clean_id` (which upcases first), `[\dXx]` in the detection predicate. -/
def idAt (tailOk : Char → Bool) : List Char → Bool
  | c0 :: c1 :: c2 :: c3 :: c4 :: c5 :: y0 :: y1 :: y2 :: y3 ::
      m0 :: m1 :: d0 :: d1 :: s0 :: s1 :: s2 :: cl :: _ =>
      (49 ≤ c0.toNat && c0.toNat ≤ 57) &&
      ([c1, c2, c3, c4, c5].all isDigitC) &&
      ((y0 = '1' && y1 = '9') || (y0 = '2' && y1 = '0')) &&
      (isDigitC y2 && isDigitC y3) &&
      ((m0 = '0' && 49 ≤ m1.toNat && m1.toNat ≤ 57) ||
       (m0 = '1' && (m1 = '0' || m1 = '1' || m1 = '2'))) &&
      ((d0 = '0' && 49 ≤ d1.toNat && d1.toNat ≤ 57) ||
       ((d0 = '1' || d0 = '2') && isDigitC d1) ||
       (d0 = '3' && (d1 = '0' || d1 = '1'))) &&
      ([s0, s1, s2].all isDigitC) &&
      tailOk cl
  | _ => false

/-- Last-character test of the `clean_id` pattern (after upcasing): digit or `X`. -/
def idTailU (c : Char) : Bool := isDigitC c || c = 'X'

/-- Last-character test of the detection ID pattern: digit, `X` or `x`. -/
def idTailD (c : Char) : Bool := isDigitC c || c = 'X' || c = 'x'

/-- Leftmost search for the 18-character ID pattern, returning the matched characters. -/
def searchId (tailOk : Char → Bool) : List Char → Option (List Char)
  | [] => none
  | c :: rest =>
      if idAt tailOk (c :: rest) then some ((c :: rest).take 18) else searchId tailOk rest

/-- `clean_id`: strip and upcase the raw text, return the first ID-pattern match, else empty. -/
def clean_id (raw : List Char) : List Char :=
  match searchId idTailU ((pyStrip raw).map Char.toUpper) with
  | some m => m
  | none => []

/-- A current date, standing for `datetime.now()` (the pipeline is parametric in it). -/
structure Date where
  year : Nat
  month : Nat
  day : Nat
deriving DecidableEq, Repr

/-- Python tuple comparison `(a, b) < (c, d)`: lexicographic. -/
def tupLt (a b : Nat × Nat) : Bool := a.1 < b.1 || (a.1 = b.1 && a.2 < b.2)

/-- Gregorian leap-year rule used by `datetime`. -/
def isLeap (y : Nat) : Bool := y % 4 = 0 && (y % 100 ≠ 0 || y % 400 = 0)

/-- Days in a month, as validated by `datetime.strptime`. -/
def daysInMonth (y m : Nat) : Nat :=
  if m = 2 then (if isLeap y then 29 else 28)
  else if m = 4 || m = 6 || m = 9 || m = 11 then 30
  else 31

/-- Is `y-m-d` a calendar date `datetime` accepts (year 1..9999)? -/
def validDate (y m d : Nat) : Bool :=
  1 ≤ y && y ≤ 9999 && 1 ≤ m && m ≤ 12 && 1 ≤ d && d ≤ daysInMonth y m

/-- Numeric value of an ASCII digit. -/
def digitVal (c : Char) : Nat := c.toNat - 48

/-- Parse an 8-character digit string as `(year, month, day)` fields (`%Y%m%d` field split);
fails unless exactly 8 digits (as `strptime` does on the slice `id_card[6:14]`). -/
def parse8 : List Char → Option (Nat × Nat × Nat)
  | [a, b, c, d, e, f, g, h] =>
      if [a, b, c, d, e, f, g, h].all isDigitC then
        some (((digitVal a * 10 + digitVal b) * 10 + digitVal c) * 10 + digitVal d,
              digitVal e * 10 + digitVal f,
              digitVal g * 10 + digitVal h)
      else none
  | _ => none

/-- The birth date embedded in an ID string: parse characters 6..13 with `%Y%m%d` and
validate as a calendar date; `none` is the `except` path of `calculate_age`. -/
def birthOf (idc : List Char) : Option (Nat × Nat × Nat) :=
  match parse8 ((idc.drop 6).take 8) with
  | some (y, m, d) => if validDate y m d then some (y, m, d) else none
  | none => none

/-- `calculate_age`: age in full years at date `t`, from the 18-character ID string. -/
def calculate_age (idc : List Char) (t : Date) : Option Int :=
  if idc = [] then none
  else
    match birthOf idc with
    | some (yb, mb, db) =>
        some ((t.year : Int) - (yb : Int) -
          (if tupLt (t.month, t.day) (mb, db) then 1 else 0))
    | none => none

/-- The five age bands (`未知`, `0-7岁`, `7-23岁`, `23-60岁`, `60岁及以上`). -/
inductive Band
  | Adult
  | Youth
  | Child
  | Senior
  | Unknown
deriving DecidableEq, Repr

/-- `age_category`: band from optional age. -/
def age_category : Option Int → Band
  | none => Band.Unknown
  | some a =>
      if a < 7 then Band.Child
      else if a < 23 then Band.Youth
      else if a < 60 then Band.Adult
      else Band.Senior

/-- One extracted row: the columns of `base_df`. -/
structure Record where
  name : List Char
  phone : List Char
  idNumber : List Char
  age : Option Int
  band : Band
deriving DecidableEq, Repr

/-- Per-row extraction in `process_excel`: strip the name, clean phone and ID,
derive age and band. -/
def mkRecord (rawName rawPhone rawId : List Char) (t : Date) : Record :=
  let idn := clean_id rawId
  let a := calculate_age idn t
  { name := pyStrip rawName
    phone := clean_phone rawPhone
    idNumber := idn
    age := a
    band := age_category a }

/-! ## Column detection (`detect_columns`) -/

/-- A table: columns in order, each a list of cells (`none` = missing). -/
abbrev Table := List (List (Option (List Char)))

/-- Detection phone predicate on one sampled value: `re.search(r'1[3-9]\d{9}', value)`. -/
def phoneHit (v : List Char) : Bool := (searchPhone v).isSome

/-- Detection ID predicate on one sampled value (last character may be `x`). -/
def idHit (v : List Char) : Bool := (searchId idTailD v).isSome

/-- Detection name predicate on one sampled value:
`re.fullmatch(r'[一-龥]{2,4}', value)` on the raw value (no trimming). -/
def nameHit (v : List Char) : Bool := 2 ≤ v.length && v.length ≤ 4 && v.all isCJK

/-- The normalized scores of one column. -/
structure ColScores where
  name : ℚ
  phone : ℚ
  id : ℚ
deriving DecidableEq, Repr

/-- The bounded sample of a column: first 100 non-missing cells. -/
def sampleOf (col : List (Option (List Char))) : List (List Char) :=
  (col.filterMap id).take 100

/-- Score one column: fraction of sampled values matching each predicate
(`scores[col][...] /= total`); all zero when the sample is empty. -/
def colScores (col : List (Option (List Char))) : ColScores :=
  let s := sampleOf col
  if s.length = 0 then ⟨0, 0, 0⟩
  else
    ⟨mkRat (s.countP nameHit) s.length,
     mkRat (s.countP phoneHit) s.length,
     mkRat (s.countP idHit) s.length⟩

/-- Scores of column `i` of the table. -/
def scoreAt (tbl : Table) (i : Nat) : ColScores := colScores (tbl.getD i [])

/-- Python `max(keys, key=f)`: earliest key with the maximal value
(ties go to the first occurrence). -/
def argmaxKey (f : Nat → ℚ) : List Nat → Option Nat
  | [] => none
  | c :: cs =>
      match argmaxKey f cs with
      | none => some c
      | some b => if f c < f b then some b else some c

/-- Column indices of the table. -/
def colIdx (tbl : Table) : List Nat := List.range tbl.length

/-- Initial pick for one field: the argmax over all columns, accepted only when
its score exceeds the 0.3 threshold. -/
def initPick (tbl : Table) (f : ColScores → ℚ) : Option Nat :=
  match argmaxKey (fun i => f (scoreAt tbl i)) (colIdx tbl) with
  | some i => if f (scoreAt tbl i) > mkRat 3 10 then some i else none
  | none => none

/-- Re-selection from the columns not in `used`; when there are no candidate
columns at all, the previous value `old` is kept unchanged (as in the source). -/
def reselect (tbl : Table) (f : ColScores → ℚ) (used : List Nat) (old : Option Nat) :
    Option Nat :=
  match argmaxKey (fun i => f (scoreAt tbl i)) ((colIdx tbl).filter (fun c => !used.contains c)) with
  | some c => if f (scoreAt tbl c) > mkRat 3 10 then some c else none
  | none => old

/-- The resolution chain of `detect_columns`, returning `(name, phone, id)` picks.
A re-selected phone column is not added to `used` (exactly as in the source). -/
def resolveCols (tbl : Table) : Option Nat × Option Nat × Option Nat :=
  let ic := initPick tbl ColScores.id
  let pc0 := initPick tbl ColScores.phone
  let nc0 := initPick tbl ColScores.name
  let used1 : List Nat := match ic with | some i => [i] | none => []
  let step2 : Option Nat × List Nat :=
    match pc0 with
    | some p =>
        if used1.contains p then (reselect tbl ColScores.phone used1 pc0, used1)
        else (some p, used1 ++ [p])
    | none => (reselect tbl ColScores.phone used1 none, used1)
  let pc := step2.1
  let used2 := step2.2
  let nc :=
    match nc0 with
    | some n => if used2.contains n then reselect tbl ColScores.name used2 nc0 else some n
    | none => reselect tbl ColScores.name used2 none
  (nc, pc, ic)

/-- The three detected fields, in the order the failure message lists them. -/
inductive DetField
  | name
  | phone
  | id
deriving DecidableEq, Repr

/-- `detect_columns`: resolve the three columns or fail with the missing fields. -/
def detect_columns (tbl : Table) : Except (List DetField) (Nat × Nat × Nat) :=
  match resolveCols tbl with
  | (some n, some p, some i) => Except.ok (n, p, i)
  | (nc, pc, ic) =>
      Except.error
        ((if nc = none then [DetField.name] else []) ++
         (if pc = none then [DetField.phone] else []) ++
         (if ic = none then [DetField.id] else []))

/-! ## Report assembly (`process_excel`, rows section) -/

/-- One row of the assembled output. -/
inductive OutputRow
  | dataRow (r : Record)
  | countRow (b : Band) (n : Nat)
  | blankRow
deriving DecidableEq, Repr

/-- The fixed band iteration order (`category_order`). -/
def bandOrder : List Band := [Band.Adult, Band.Youth, Band.Child, Band.Senior, Band.Unknown]

/-- The records of one band, in original order. -/
def bandRecs (recs : List Record) (b : Band) : List Record :=
  recs.filter (fun r => r.band = b)

/-- The band-specific sub-split predicate (`sub_condition`); records inside the
Adult and Youth bands always carry a numeric age, so `none` maps to `false`. -/
def subPred (b : Band) (r : Record) : Bool :=
  match b, r.age with
  | Band.Adult, some a => 23 ≤ a && a < 25
  | Band.Youth, some a => 21 ≤ a && a < 23
  | _, _ => false

/-- The output rows one band contributes: nothing when empty, else the main
data rows, the sub data rows, the count row, and a blank row unless the band is
the last of the fixed order. -/
def bandBlock (recs : List Record) (b : Band) : List OutputRow :=
  let cat := bandRecs recs b
  if cat = [] then []
  else
    (cat.filter (fun r => !subPred b r)).map OutputRow.dataRow ++
    (cat.filter (subPred b)).map OutputRow.dataRow ++
    [OutputRow.countRow b cat.length] ++
    (if b = Band.Unknown then [] else [OutputRow.blankRow])

/-- `assemble`: the final ordered output rows. -/
def assemble (recs : List Record) : List OutputRow :=
  (bandOrder.map (bandBlock recs)).flatten

/-- The records carried by the data rows of a row list, in order. -/
def dataRowsOf (rows : List OutputRow) : List Record :=
  rows.filterMap (fun row => match row with | OutputRow.dataRow r => some r | _ => none)

/-- The `(band, count)` pairs carried by the count rows of a row list, in order. -/
def countRowsOf (rows : List OutputRow) : List (Band × Nat) :=
  rows.filterMap (fun row => match row with | OutputRow.countRow b n => some (b, n) | _ => none)

/-! ## Highlighting (`process_excel`, styling section) -/

/-- The four highlight classes (yellow, green, blue fills, or none). -/
inductive HighlightClass
  | noFill
  | careFlag
  | transitionA
  | transitionB
deriving DecidableEq, Repr

/-- The fill applied to one output row by the styling loop.  Count rows and
blank rows render an empty band cell, so the `if name and ... and cat` guard
skips them; a data row is skipped when its name is empty. -/
def rowHighlight : OutputRow → HighlightClass
  | OutputRow.blankRow => HighlightClass.noFill
  | OutputRow.countRow _ _ => HighlightClass.noFill
  | OutputRow.dataRow r =>
      if r.name = [] then HighlightClass.noFill
      else
        match r.band, r.age with
        | Band.Senior, _ => HighlightClass.careFlag
        | Band.Child, _ => HighlightClass.careFlag
        | Band.Adult, some a =>
            if 23 ≤ a && a < 25 then HighlightClass.transitionA else HighlightClass.noFill
        | Band.Youth, some a =>
            if 21 ≤ a && a < 23 then HighlightClass.transitionB else HighlightClass.noFill
        | _, _ => HighlightClass.noFill

/-! ## Spec-side comparison definitions and concrete fixtures -/

/-- The spec's reading of the phone predicate, for comparison with the code: an
occurrence of `1[3-9]\d{9}` bounded by non-digits, i.e. a run of exactly 11
digits.  `prev` is the character just before the candidate position. -/
def strictPhoneAt (prev : Option Char) (l : List Char) : Bool :=
  phoneAt l &&
  (match prev with | some c => !isDigitC c | none => true) &&
  (match l.drop 11 with | c :: _ => !isDigitC c | [] => true)

/-- Helper scan for `hasStrictPhone`, carrying the previous character. -/
def hasStrictPhoneAux (prev : Option Char) : List Char → Bool
  | [] => false
  | c :: rest => strictPhoneAt prev (c :: rest) || hasStrictPhoneAux (some c) rest

/-- Does the value contain a substring of exactly 11 digits matching the phone
pattern (the spec's wording of the predicate)? -/
def hasStrictPhone (l : List Char) : Bool := hasStrictPhoneAux none l

/-- A fixed current date used by the concrete fixtures. -/
def t0 : Date := ⟨2026, 10, 12⟩

/-- Adult aged 40 at `t0` (born 1986-01-01). -/
def rA40 : Record := mkRecord (S "张三") (S "13912345678") (S "11010119860101123X") t0

/-- Adult aged 24 at `t0` (born 2002-05-01), inside the 23-25 sub-window. -/
def rA24 : Record := mkRecord (S "李四") (S "13812345678") (S "110101200205011234") t0

/-- Child aged 3 at `t0` (born 2023-07-01). -/
def rC3 : Record := mkRecord (S "王五") (S "") (S "110101202307011234") t0

/-- A column of five identical valid ID values (each also contains a phone-shaped
digit run, so it scores 1.0 for both the ID and the phone predicates). -/
def colA : List (Option (List Char)) := (List.replicate 5 (S "110101199001011234")).map some

/-- A column mixing two CJK names and two phone numbers (scores 0.4 for both the
name and the phone predicates). -/
def colB : List (Option (List Char)) :=
  [some (S "张三"), some (S "李四"), some (S "13812345678"), some (S "13912345678"), some (S "x")]

/-- Failing input for the distinct-columns invariant: the ID column also has the
top phone score, so phone is re-selected to column 1, which the name pick then
also keeps. -/
def tblC2 : Table := [colA, colB]

/-- A single column mixing two CJK names and three valid IDs: all three scores
exceed 0.3 but there is only one column. -/
def colC : List (Option (List Char)) :=
  [some (S "张三"), some (S "李四"), some (S "110101199001011234"),
   some (S "110101199001011234"), some (S "110101199001011234")]

/-- Failing input for the detection failure condition: a one-column table on
which every field resolves to the same single column. -/
def tblC9 : Table := [colC]

/-! ## Search lemmas -/

/-- The phone search fails exactly when the pattern matches at no position. -/
theorem searchPhone_eq_none_iff (l : List Char) :
    searchPhone l = none ↔ ∀ i, phoneAt (l.drop i) = false := by
  induction l with
  | nil => simp [searchPhone, phoneAt]
  | cons c rest ih =>
    cases h : phoneAt (c :: rest) with
    | true =>
      simp only [searchPhone, h, if_true]
      constructor
      · intro hc; cases hc
      · intro hall
        have h0 := hall 0
        rw [List.drop_zero, h] at h0
        cases h0
    | false =>
      simp only [searchPhone, h, Bool.false_eq_true, if_false]
      rw [ih]
      constructor
      · intro hall i
        cases i with
        | zero => rw [List.drop_zero]; exact h
        | succ i => rw [List.drop_succ_cons]; exact hall i
      · intro hall i
        have := hall (i + 1)
        rwa [List.drop_succ_cons] at this

/-- The phone search returns the 11 characters at the leftmost matching position. -/
theorem searchPhone_leftmost (l : List Char) (i : Nat)
    (h : phoneAt (l.drop i) = true) (hmin : ∀ j, j < i → phoneAt (l.drop j) = false) :
    searchPhone l = some ((l.drop i).take 11) := by
  induction l generalizing i with
  | nil => rw [List.drop_nil] at h; cases h
  | cons c rest ih =>
    cases i with
    | zero =>
      rw [List.drop_zero] at h ⊢
      simp only [searchPhone, h, if_true]
    | succ i =>
      have h0 := hmin 0 (Nat.succ_pos i)
      rw [List.drop_zero] at h0
      rw [List.drop_succ_cons] at h ⊢
      simp only [searchPhone, h0, Bool.false_eq_true, if_false]
      exact ih i h (fun j hj => by
        have := hmin (j + 1) (Nat.succ_lt_succ hj)
        rwa [List.drop_succ_cons] at this)

/-- A successful phone search never returns the empty string. -/
theorem searchPhone_some_ne_nil {l m : List Char} (h : searchPhone l = some m) : m ≠ [] := by
  induction l with
  | nil => cases h
  | cons c rest ih =>
    rw [searchPhone] at h
    split at h
    · cases h; simp
    · exact ih h

/-! ## Claim C3 -/

/-- C3 (amended): `clean_phone` (and the detection phone predicate) succeeds iff
the stripped value contains an occurrence of the pattern `1[3-9]\d{9}` at some
position — no digit-boundary requirement, so a longer digit run embedding the
pattern also qualifies — and on success it returns the 11 characters of the
leftmost occurrence; with no occurrence it returns the empty string. -/
theorem clean_phone_leftmost_match (raw : List Char) :
    (clean_phone raw = [] ↔ ∀ i, phoneAt ((pyStrip raw).drop i) = false)
    ∧ (∀ i, phoneAt ((pyStrip raw).drop i) = true →
        (∀ j, j < i → phoneAt ((pyStrip raw).drop j) = false) →
        clean_phone raw = ((pyStrip raw).drop i).take 11)
    ∧ (phoneHit raw = true ↔ ∃ i, phoneAt (raw.drop i) = true) := by
  refine ⟨?_, ?_, ?_⟩
  · unfold clean_phone
    cases hs : searchPhone (pyStrip raw) with
    | none => simpa using (searchPhone_eq_none_iff _).1 hs
    | some m =>
      constructor
      · intro hm; exact absurd hm (searchPhone_some_ne_nil hs)
      · intro hall
        rw [(searchPhone_eq_none_iff _).2 hall] at hs
        cases hs
  · intro i h hmin
    unfold clean_phone
    rw [searchPhone_leftmost _ i h hmin]
  · unfold phoneHit
    cases hs : searchPhone raw with
    | none =>
      simp only [Option.isSome_none, Bool.false_eq_true, false_iff]
      intro ⟨i, hi⟩
      rw [(searchPhone_eq_none_iff _).1 hs i] at hi
      cases hi
    | some m =>
      simp only [Option.isSome_some, true_iff]
      by_contra h
      push_neg at h
      have hall : ∀ i, phoneAt (raw.drop i) = false := fun i => by
        cases hp : phoneAt (raw.drop i) with
        | true => exact absurd hp (h i)
        | false => rfl
      rw [(searchPhone_eq_none_iff _).2 hall] at hs
      cases hs

/-- C3 counterexample: the value `139123456789` is a 12-digit run with no
substring of exactly 11 digits in the required shape, yet `clean_phone`
extracts `13912345678` from it instead of returning the empty string. -/
theorem clean_phone_embedded_run_counterexample :
    clean_phone (S "139123456789") = S "13912345678"
    ∧ hasStrictPhone (pyStrip (S "139123456789")) = false := by decide

/-- Witness for `clean_phone_leftmost_match`: on `a13812345678` the leftmost
match is at position 1. -/
theorem clean_phone_leftmost_match_witness :
    clean_phone (S "a13812345678") = ((pyStrip (S "a13812345678")).drop 1).take 11 :=
  (clean_phone_leftmost_match (S "a13812345678")).2.1 1 (by decide) (by decide)

/-! ## Claim C4 -/

/-- C4 (amended): the detection name predicate holds iff the entire raw sampled
value — with no trimming — is 2 to 4 CJK ideographs; a value whose ideographs
are surrounded by whitespace does not count toward the column's name score. -/
theorem name_predicate_untrimmed (v : List Char) :
    nameHit v = true ↔
      (2 ≤ v.length ∧ v.length ≤ 4 ∧ ∀ c ∈ v, 0x4e00 ≤ c.toNat ∧ c.toNat ≤ 0x9fa5) := by
  simp [nameHit, isCJK, List.all_eq_true, and_assoc]

/-- C4 counterexample: a 2-ideograph value surrounded by whitespace fails the
code's untrimmed full-match, although its trimmed form passes it. -/
theorem name_predicate_whitespace_counterexample :
    nameHit (S " 张三 ") = false
    ∧ pyStrip (S " 张三 ") = S "张三"
    ∧ nameHit (S "张三") = true := by decide

/-! ## Claim C5 -/

/-- C5 (amended): whenever the embedded birth substring of an ID string parses
as a calendar date, the computed age is (current year − birth year) minus one
exactly when (current month, current day) is lexicographically before
(birth month, birth day); hence the age is always within ±1 of the year
difference, and it is non-negative whenever the current date is not before the
birth date (for a birth date in the future the age is negative). -/
theorem age_within_one_of_year_diff (idc : List Char) (t : Date) (yb mb db : Nat)
    (h : birthOf idc = some (yb, mb, db)) :
    calculate_age idc t =
      some ((t.year : Int) - (yb : Int) - (if tupLt (t.month, t.day) (mb, db) then 1 else 0))
    ∧ (∀ a : Int, calculate_age idc t = some a →
        (t.year : Int) - (yb : Int) - 1 ≤ a ∧ a ≤ (t.year : Int) - (yb : Int))
    ∧ (∀ a : Int, calculate_age idc t = some a →
        (yb < t.year ∨ (yb = t.year ∧ tupLt (t.month, t.day) (mb, db) = false)) → 0 ≤ a) := by
  have hne : idc ≠ [] := by
    intro he
    rw [he, show birthOf ([] : List Char) = none from rfl] at h
    cases h
  have hmain : calculate_age idc t =
      some ((t.year : Int) - (yb : Int) - (if tupLt (t.month, t.day) (mb, db) then 1 else 0)) := by
    unfold calculate_age
    rw [if_neg hne, h]
  refine ⟨hmain, ?_, ?_⟩
  · intro a ha
    rw [hmain] at ha
    injection ha with ha
    subst ha
    split <;> omega
  · intro a ha hc
    rw [hmain] at ha
    injection ha with ha
    subst ha
    rcases hc with hlt | ⟨heq, hf⟩
    · split <;> omega
    · rw [hf]
      simp only [Bool.false_eq_true, if_false]
      omega

/-- C5 counterexample: `110101209901011234` is accepted verbatim by `clean_id`
and its birth substring 2099-01-01 parses, yet at current date 2026-10-12 the
computed age is −73, which is negative. -/
theorem age_negative_counterexample :
    clean_id (S "110101209901011234") = S "110101209901011234"
    ∧ calculate_age (S "110101209901011234") ⟨2026, 10, 12⟩ = some (-73)
    ∧ ((-73 : Int) < 0) := by decide

/-- Witness for `age_within_one_of_year_diff` at a 1990-01-01 birth date. -/
theorem age_within_one_of_year_diff_witness :
    calculate_age (S "110101199001011234") t0 =
      some ((t0.year : Int) - (1990 : Nat) - (if tupLt (t0.month, t0.day) (1, 1) then 1 else 0)) :=
  (age_within_one_of_year_diff (S "110101199001011234") t0 1990 1 1 (by decide)).1

/-! ## Claim C6 -/

/-- The digit test follows from the strictly-positive bounds used in the patterns. -/
theorem isDigitC_of_bounds {c : Char} (h1 : 49 ≤ c.toNat) (h2 : c.toNat ≤ 57) :
    isDigitC c = true := by
  simp only [isDigitC, Bool.and_eq_true, decide_eq_true_eq]
  omega

/-- An ID-pattern match carries a parseable 8-digit substring at offset 6. -/
theorem idAt_parse8 {tailOk : Char → Bool} {l : List Char} (h : idAt tailOk l = true) :
    ∃ y m d, parse8 ((l.drop 6).take 8) = some (y, m, d) := by
  rcases l with _ | ⟨c0, l⟩; · cases h
  rcases l with _ | ⟨c1, l⟩; · cases h
  rcases l with _ | ⟨c2, l⟩; · cases h
  rcases l with _ | ⟨c3, l⟩; · cases h
  rcases l with _ | ⟨c4, l⟩; · cases h
  rcases l with _ | ⟨c5, l⟩; · cases h
  rcases l with _ | ⟨y0, l⟩; · cases h
  rcases l with _ | ⟨y1, l⟩; · cases h
  rcases l with _ | ⟨y2, l⟩; · cases h
  rcases l with _ | ⟨y3, l⟩; · cases h
  rcases l with _ | ⟨m0, l⟩; · cases h
  rcases l with _ | ⟨m1, l⟩; · cases h
  rcases l with _ | ⟨d0, l⟩; · cases h
  rcases l with _ | ⟨d1, l⟩; · cases h
  rcases l with _ | ⟨s0, l⟩; · cases h
  rcases l with _ | ⟨s1, l⟩; · cases h
  rcases l with _ | ⟨s2, l⟩; · cases h
  rcases l with _ | ⟨cl, rest⟩; · cases h
  simp only [idAt, Bool.and_eq_true, Bool.or_eq_true, decide_eq_true_eq,
    List.all_cons, List.all_nil, and_true] at h
  obtain ⟨⟨⟨⟨⟨⟨⟨hA, hB⟩, hC⟩, hD⟩, hE⟩, hF⟩, hG⟩, hH⟩ := h
  have hdig : ([y0, y1, y2, y3, m0, m1, d0, d1].all isDigitC) = true := by
    simp only [List.all_cons, List.all_nil, Bool.and_eq_true, and_true]
    refine ⟨?_, ?_, hD.1, hD.2, ?_, ?_, ?_, ?_⟩
    · rcases hC with ⟨h1, -⟩ | ⟨h1, -⟩ <;> (rw [h1]; rfl)
    · rcases hC with ⟨-, h2⟩ | ⟨-, h2⟩ <;> (rw [h2]; rfl)
    · rcases hE with ⟨⟨h1, -⟩, -⟩ | ⟨h1, -⟩ <;> (rw [h1]; rfl)
    · rcases hE with ⟨⟨-, h2⟩, h3⟩ | ⟨-, (h2 | h2) | h2⟩
      · exact isDigitC_of_bounds h2 h3
      all_goals rw [h2]; rfl
    · rcases hF with (⟨⟨h1, -⟩, -⟩ | ⟨h1 | h1, -⟩) | ⟨h1, -⟩ <;> (rw [h1]; rfl)
    · rcases hF with (⟨⟨-, h2⟩, h3⟩ | ⟨-, h2⟩) | ⟨-, h2 | h2⟩
      · exact isDigitC_of_bounds h2 h3
      · exact h2
      all_goals rw [h2]; rfl
  have hp : parse8 [y0, y1, y2, y3, m0, m1, d0, d1] =
      some (((digitVal y0 * 10 + digitVal y1) * 10 + digitVal y2) * 10 + digitVal y3,
            digitVal m0 * 10 + digitVal m1,
            digitVal d0 * 10 + digitVal d1) := by
    simp only [parse8]
    rw [if_pos hdig]
  exact ⟨_, _, _, hp⟩

/-- The ID search returns the 18-character slice at a matching position. -/
theorem searchId_some {tailOk : Char → Bool} {l m : List Char}
    (h : searchId tailOk l = some m) :
    ∃ i, idAt tailOk (l.drop i) = true ∧ m = (l.drop i).take 18 := by
  induction l with
  | nil => cases h
  | cons c rest ih =>
    rw [searchId] at h
    by_cases hat : idAt tailOk (c :: rest) = true
    · rw [if_pos hat] at h
      injection h with h
      exact ⟨0, hat, h.symm⟩
    · rw [if_neg hat] at h
      obtain ⟨i, hi, hm⟩ := ih h
      exact ⟨i + 1, by rw [List.drop_succ_cons]; exact hi,
        by rw [List.drop_succ_cons]; exact hm⟩

/-- A non-empty `clean_id` result carries a parseable 8-digit birth substring at
positions 6..13, so its only remaining failure mode is calendar validity. -/
theorem clean_id_parse8 {raw : List Char} (h : clean_id raw ≠ []) :
    ∃ y m d, parse8 (((clean_id raw).drop 6).take 8) = some (y, m, d) := by
  rw [clean_id] at h ⊢
  cases hs : searchId idTailU ((pyStrip raw).map Char.toUpper) with
  | none => rw [hs] at h; exact absurd rfl h
  | some mm =>
    obtain ⟨i, hi, hm⟩ := searchId_some hs
    subst hm
    obtain ⟨y, m, d, hp⟩ := idAt_parse8 hi
    refine ⟨y, m, d, ?_⟩
    show parse8 ((((((pyStrip raw).map Char.toUpper).drop i).take 18).drop 6).take 8) =
      some (y, m, d)
    rw [List.drop_take, List.take_take]
    simpa using hp

/-- C6: for every raw ID cell and current date, the derived age is null iff the
extracted `idNumber` is empty or its embedded birth substring does not yield a
valid calendar date; the band is `Unknown` iff the age is null; a numeric age
falls in exactly the band given by the thresholds 7, 23, 60, so every record
lies in exactly one of the five bands; and a non-empty `idNumber` always has a
parseable 8-digit birth substring, whose calendar validity alone decides
whether the age is null. -/
theorem age_null_iff_band_partition (raw : List Char) (t : Date) :
    (calculate_age (clean_id raw) t = none ↔
      (clean_id raw = [] ∨ birthOf (clean_id raw) = none))
    ∧ (age_category (calculate_age (clean_id raw) t) = Band.Unknown ↔
        calculate_age (clean_id raw) t = none)
    ∧ (∀ a : Int,
        (age_category (some a) = Band.Child ↔ a < 7)
        ∧ (age_category (some a) = Band.Youth ↔ (7 ≤ a ∧ a < 23))
        ∧ (age_category (some a) = Band.Adult ↔ (23 ≤ a ∧ a < 60))
        ∧ (age_category (some a) = Band.Senior ↔ 60 ≤ a))
    ∧ (clean_id raw ≠ [] →
        ∃ y m d, parse8 (((clean_id raw).drop 6).take 8) = some (y, m, d))
    ∧ (∀ y m d : Nat, parse8 (((clean_id raw).drop 6).take 8) = some (y, m, d) →
        (calculate_age (clean_id raw) t = none ↔ validDate y m d = false)) := by
  have hlast : ∀ y m d : Nat, parse8 (((clean_id raw).drop 6).take 8) = some (y, m, d) →
      (calculate_age (clean_id raw) t = none ↔ validDate y m d = false) := by
    intro y m d hp
    have hne : clean_id raw ≠ [] := by
      intro he
      rw [he] at hp
      cases hp
    unfold calculate_age
    rw [if_neg hne]
    unfold birthOf
    rw [hp]
    cases hv : validDate y m d
    · simp [hv]
    · simp [hv]
  refine ⟨?_, ?_, ?_, fun h => clean_id_parse8 h, hlast⟩
  · by_cases hid : clean_id raw = []
    · rw [hid]
      simp [calculate_age]
    · unfold calculate_age
      rw [if_neg hid]
      cases hb : birthOf (clean_id raw) with
      | none => simp [hb]
      | some p =>
        obtain ⟨yb, mb, db⟩ := p
        simp [hid, hb]
  · cases ha : calculate_age (clean_id raw) t with
    | none => simp [age_category]
    | some a =>
      constructor
      · intro hu
        exfalso
        revert hu
        simp only [age_category]
        split_ifs <;> simp
      · intro hc; cases hc
  · intro a
    simp only [age_category]
    split_ifs <;> simp <;> omega

/-- Witness for `age_null_iff_band_partition`: the ID-shaped value with embedded
birth substring 1999-02-29 (not a leap year) yields a null age exactly because
the date is calendar-invalid. -/
theorem age_null_iff_band_partition_witness :
    calculate_age (clean_id (S "110101199902291234")) t0 = none ↔
      validDate 1999 2 29 = false :=
  (age_null_iff_band_partition (S "110101199902291234") t0).2.2.2.2 1999 2 29 (by decide)

/-! ## Claim C10 -/

/-- C10: a data row with a non-empty name is filled CareFlag (yellow) exactly
for bands Child and Senior, TransitionA (green) exactly when the band is Adult
and the age lies in the assembler's Adult sub-window (the same `subPred`), and
TransitionB (blue) exactly when the band is Youth and the age lies in the Youth
sub-window; rows with an empty name, count rows and blank rows are never
filled. -/
theorem highlight_policy (r : Record) :
    (rowHighlight (OutputRow.dataRow r) = HighlightClass.careFlag ↔
      (r.name ≠ [] ∧ (r.band = Band.Child ∨ r.band = Band.Senior)))
    ∧ (rowHighlight (OutputRow.dataRow r) = HighlightClass.transitionA ↔
      (r.name ≠ [] ∧ r.band = Band.Adult ∧ subPred Band.Adult r = true))
    ∧ (rowHighlight (OutputRow.dataRow r) = HighlightClass.transitionB ↔
      (r.name ≠ [] ∧ r.band = Band.Youth ∧ subPred Band.Youth r = true))
    ∧ (∀ b n, rowHighlight (OutputRow.countRow b n) = HighlightClass.noFill)
    ∧ rowHighlight OutputRow.blankRow = HighlightClass.noFill := by
  refine ⟨?_, ?_, ?_, fun b n => rfl, rfl⟩ <;>
    · simp only [rowHighlight, subPred]
      by_cases hn : r.name = [] <;>
        rcases hr : r.band <;> rcases hage : r.age with _ | a <;>
          simp [hn, hr, hage] <;> split_ifs <;> simp_all

/-- Witness for `highlight_policy`: the age-24 Adult fixture is filled
TransitionA, matching its membership in the Adult sub-split. -/
theorem highlight_policy_witness :
    rowHighlight (OutputRow.dataRow rA24) = HighlightClass.transitionA ↔
      (rA24.name ≠ [] ∧ rA24.band = Band.Adult ∧ subPred Band.Adult rA24 = true) :=
  (highlight_policy rA24).2.1

/-! ## Assembly lemmas -/

/-- `dataRowsOf` distributes over append. -/
theorem dataRowsOf_append (xs ys : List OutputRow) :
    dataRowsOf (xs ++ ys) = dataRowsOf xs ++ dataRowsOf ys :=
  List.filterMap_append xs ys _

/-- The data rows of a mapped record list are the records themselves. -/
theorem dataRowsOf_map_dataRow (rs : List Record) :
    dataRowsOf (rs.map OutputRow.dataRow) = rs := by
  induction rs with
  | nil => rfl
  | cons r rs ih => simp_all [dataRowsOf]

/-- `countRowsOf` distributes over append. -/
theorem countRowsOf_append (xs ys : List OutputRow) :
    countRowsOf (xs ++ ys) = countRowsOf xs ++ countRowsOf ys :=
  List.filterMap_append xs ys _

/-- Mapped record lists contribute no count rows. -/
theorem countRowsOf_map_dataRow (rs : List Record) :
    countRowsOf (rs.map OutputRow.dataRow) = [] := by
  induction rs with
  | nil => rfl
  | cons r rs ih => simp_all [countRowsOf]

/-- The data rows of a band's block are its main subset followed by its sub subset. -/
theorem dataRowsOf_bandBlock (recs : List Record) (b : Band) :
    dataRowsOf (bandBlock recs b) =
      (bandRecs recs b).filter (fun r => !subPred b r) ++ (bandRecs recs b).filter (subPred b) := by
  unfold bandBlock
  by_cases hc : bandRecs recs b = []
  · simp [hc, dataRowsOf]
  · rw [if_neg hc]
    rw [dataRowsOf_append, dataRowsOf_append, dataRowsOf_append,
      dataRowsOf_map_dataRow, dataRowsOf_map_dataRow]
    have h1 : dataRowsOf [OutputRow.countRow b (bandRecs recs b).length] = [] := rfl
    have h2 : dataRowsOf (if b = Band.Unknown then [] else [OutputRow.blankRow]) = [] := by
      split <;> rfl
    rw [h1, h2]
    simp

/-- The count rows of a band's block: exactly one, carrying the band size. -/
theorem countRowsOf_bandBlock (recs : List Record) (b : Band) (h : bandRecs recs b ≠ []) :
    countRowsOf (bandBlock recs b) = [(b, (bandRecs recs b).length)] := by
  unfold bandBlock
  rw [if_neg h]
  rw [countRowsOf_append, countRowsOf_append, countRowsOf_append,
    countRowsOf_map_dataRow, countRowsOf_map_dataRow]
  have h1 : countRowsOf [OutputRow.countRow b (bandRecs recs b).length] =
      [(b, (bandRecs recs b).length)] := rfl
  have h2 : countRowsOf (if b = Band.Unknown then [] else [OutputRow.blankRow]) = [] := by
    split <;> rfl
  rw [h1, h2]
  simp

/-- Filtering by a predicate and by its negation splits a list into a permutation. -/
theorem filter_not_append_filter_perm (p : Record → Bool) (l : List Record) :
    (l.filter (fun x => !p x) ++ l.filter p).Perm l := by
  induction l with
  | nil => simp
  | cons a l ih =>
    cases hp : p a with
    | true =>
      rw [List.filter_cons_of_pos hp, List.filter_cons_of_neg (by simp [hp])]
      exact (List.perm_middle).trans (ih.cons a)
    | false =>
      rw [@List.filter_cons_of_pos Record (fun x => !p x) a l (by simp [hp]),
        @List.filter_cons_of_neg Record p a l (by simp [hp])]
      exact ih.cons a

/-! ## Claim C7 -/

/-- C7: assembly concatenates the band blocks in the fixed order Adult, Youth,
Child, Senior, Unknown; an empty band contributes no rows; the data rows of
each block are exactly the band's records with the main subset (order
preserved) before the sub subset (order preserved); and the sub predicate is
the 23-25 window for Adult, the 21-23 window for Youth, and empty elsewhere. -/
theorem assemble_band_order (recs : List Record) :
    assemble recs =
      bandBlock recs Band.Adult ++ bandBlock recs Band.Youth ++ bandBlock recs Band.Child ++
        bandBlock recs Band.Senior ++ bandBlock recs Band.Unknown
    ∧ (∀ b, bandRecs recs b = [] → bandBlock recs b = [])
    ∧ (∀ b, dataRowsOf (bandBlock recs b) =
        (bandRecs recs b).filter (fun r => !subPred b r) ++ (bandRecs recs b).filter (subPred b))
    ∧ (∀ r, subPred Band.Adult r = true ↔ ∃ a, r.age = some a ∧ 23 ≤ a ∧ a < 25)
    ∧ (∀ r, subPred Band.Youth r = true ↔ ∃ a, r.age = some a ∧ 21 ≤ a ∧ a < 23)
    ∧ (∀ b r, b ≠ Band.Adult → b ≠ Band.Youth → subPred b r = false) := by
  refine ⟨?_, ?_, fun b => dataRowsOf_bandBlock recs b, ?_, ?_, ?_⟩
  · simp [assemble, bandOrder]
  · intro b hb
    unfold bandBlock
    rw [if_pos hb]
  · intro r
    cases hage : r.age with
    | none => simp [subPred, hage]
    | some a =>
      simp only [subPred, hage, Bool.and_eq_true, decide_eq_true_eq]
      constructor
      · intro ⟨h1, h2⟩; exact ⟨a, rfl, h1, h2⟩
      · intro ⟨x, hx, h1, h2⟩; cases hx; exact ⟨h1, h2⟩
  · intro r
    cases hage : r.age with
    | none => simp [subPred, hage]
    | some a =>
      simp only [subPred, hage, Bool.and_eq_true, decide_eq_true_eq]
      constructor
      · intro ⟨h1, h2⟩; exact ⟨a, rfl, h1, h2⟩
      · intro ⟨x, hx, h1, h2⟩; cases hx; exact ⟨h1, h2⟩
  · intro b r hba hby
    cases b <;> first | rfl | (exact absurd rfl hba) | (exact absurd rfl hby)

/-- Witness for `assemble_band_order`: the empty Senior band of the fixture list
contributes no rows. -/
theorem assemble_band_order_witness :
    bandBlock [rA40, rA24, rC3] Band.Senior = [] :=
  (assemble_band_order [rA40, rA24, rC3]).2.1 Band.Senior (by decide)

/-! ## Claim C8 -/

/-- C8: a non-empty band's block carries exactly one count row, whose value is
the band's record count; the number of data rows emitted for the band equals
that count; the data rows are a permutation of the band's record list (no
duplication or omission); and the main and sub subsets are disjoint. -/
theorem count_row_matches_band (recs : List Record) (b : Band)
    (h : bandRecs recs b ≠ []) :
    countRowsOf (bandBlock recs b) = [(b, (bandRecs recs b).length)]
    ∧ (dataRowsOf (bandBlock recs b)).length = (bandRecs recs b).length
    ∧ (dataRowsOf (bandBlock recs b)).Perm (bandRecs recs b)
    ∧ (∀ r, ¬(r ∈ (bandRecs recs b).filter (fun x => !subPred b x) ∧
          r ∈ (bandRecs recs b).filter (subPred b))) := by
  have hperm : (dataRowsOf (bandBlock recs b)).Perm (bandRecs recs b) := by
    rw [dataRowsOf_bandBlock]
    exact filter_not_append_filter_perm (subPred b) (bandRecs recs b)
  refine ⟨countRowsOf_bandBlock recs b h, hperm.length_eq, hperm, ?_⟩
  intro r ⟨h1, h2⟩
  rw [List.mem_filter] at h1 h2
  rw [h2.2] at h1
  cases h1.2

/-- Witness for `count_row_matches_band`: the Adult band of the fixture list has
two records and one count row valued 2. -/
theorem count_row_matches_band_witness :
    countRowsOf (bandBlock [rA40, rA24, rC3] Band.Adult) =
      [(Band.Adult, (bandRecs [rA40, rA24, rC3] Band.Adult).length)] :=
  (count_row_matches_band [rA40, rA24, rC3] Band.Adult (by decide)).1

/-! ## Claim C1 -/

/-- A non-last band's block is empty or ends with a blank row. -/
theorem bandBlock_ends_blank (recs : List Record) (b : Band) (hb : b ≠ Band.Unknown) :
    bandBlock recs b = [] ∨ (bandBlock recs b).getLast? = some OutputRow.blankRow := by
  unfold bandBlock
  by_cases hc : bandRecs recs b = []
  · left; rw [if_pos hc]
  · right
    rw [if_neg hc, if_neg hb]
    simp [List.getLast?_append]

/-- The Unknown band's block is empty or ends with its count row. -/
theorem bandBlock_unknown_last (recs : List Record) :
    bandBlock recs Band.Unknown = [] ∨
      (bandBlock recs Band.Unknown).getLast? =
        some (OutputRow.countRow Band.Unknown (bandRecs recs Band.Unknown).length) := by
  unfold bandBlock
  by_cases hc : bandRecs recs Band.Unknown = []
  · left; rw [if_pos hc]
  · right
    rw [if_neg hc, if_pos rfl]
    simp [List.getLast?_append]

/-- A band's block is empty exactly when the band has no records. -/
theorem bandBlock_eq_nil_iff (recs : List Record) (b : Band) :
    bandBlock recs b = [] ↔ bandRecs recs b = [] := by
  unfold bandBlock
  by_cases hc : bandRecs recs b = []
  · simp [hc]
  · rw [if_neg hc]
    simp [hc, List.append_eq_nil]

/-- Appending preserves "empty or ends with a blank row". -/
theorem endsBlank_append {xs ys : List OutputRow}
    (hx : xs = [] ∨ xs.getLast? = some OutputRow.blankRow)
    (hy : ys = [] ∨ ys.getLast? = some OutputRow.blankRow) :
    xs ++ ys = [] ∨ (xs ++ ys).getLast? = some OutputRow.blankRow := by
  rcases hy with rfl | hy
  · simpa using hx
  · right
    rw [List.getLast?_append, hy]
    rfl

/-- Every record of the list lies in the band list of its own band. -/
theorem mem_bandRecs_self {recs : List Record} {r : Record} (hr : r ∈ recs) :
    r ∈ bandRecs recs r.band := by
  rw [bandRecs, List.mem_filter]
  exact ⟨hr, by simp⟩

/-- C1 (amended): a band's block contains a blank row iff the band is non-empty
and is not the last band of the fixed iteration order (Unknown) — regardless of
whether the later bands are empty; consequently the whole output ends with a
trailing blank row exactly when there are records but none in the Unknown band. -/
theorem blank_separator_placement (recs : List Record) :
    (∀ b, OutputRow.blankRow ∈ bandBlock recs b ↔
      (bandRecs recs b ≠ [] ∧ b ≠ Band.Unknown))
    ∧ ((assemble recs).getLast? = some OutputRow.blankRow ↔
        (recs ≠ [] ∧ bandRecs recs Band.Unknown = [])) := by
  constructor
  · intro b
    unfold bandBlock
    by_cases hc : bandRecs recs b = []
    · simp [hc]
    · rw [if_neg hc]
      by_cases hb : b = Band.Unknown
      · subst hb
        simp [hc]
      · simp [hc, hb]
  · have hfirst4 : (bandBlock recs Band.Adult ++ bandBlock recs Band.Youth ++
        bandBlock recs Band.Child ++ bandBlock recs Band.Senior) = [] ∨
        (bandBlock recs Band.Adult ++ bandBlock recs Band.Youth ++
          bandBlock recs Band.Child ++ bandBlock recs Band.Senior).getLast? =
          some OutputRow.blankRow :=
      endsBlank_append (endsBlank_append (endsBlank_append
        (bandBlock_ends_blank recs Band.Adult (by decide))
        (bandBlock_ends_blank recs Band.Youth (by decide)))
        (bandBlock_ends_blank recs Band.Child (by decide)))
        (bandBlock_ends_blank recs Band.Senior (by decide))
    have hasm : assemble recs = (bandBlock recs Band.Adult ++ bandBlock recs Band.Youth ++
        bandBlock recs Band.Child ++ bandBlock recs Band.Senior) ++
          bandBlock recs Band.Unknown := by
      simp [assemble, bandOrder]
    by_cases hu : bandRecs recs Band.Unknown = []
    · have hunil : bandBlock recs Band.Unknown = [] :=
        (bandBlock_eq_nil_iff recs Band.Unknown).2 hu
      rw [hasm, hunil, List.append_nil]
      constructor
      · intro hlast
        refine ⟨?_, hu⟩
        intro hrecs
        subst hrecs
        simp [bandBlock, bandRecs] at hlast
      · rintro ⟨hrecs, -⟩
        rcases hfirst4 with h4 | h4
        · exfalso
          rw [List.append_eq_nil, List.append_eq_nil, List.append_eq_nil] at h4
          obtain ⟨⟨⟨hA, hY⟩, hC⟩, hS⟩ := h4
          rcases recs with _ | ⟨r, rest⟩
          · exact hrecs rfl
          · have hmem : r ∈ bandRecs (r :: rest) r.band :=
              mem_bandRecs_self (List.mem_cons_self r rest)
            cases hbc : r.band with
            | Adult =>
              rw [hbc, (bandBlock_eq_nil_iff _ _).1 hA] at hmem; cases hmem
            | Youth =>
              rw [hbc, (bandBlock_eq_nil_iff _ _).1 hY] at hmem; cases hmem
            | Child =>
              rw [hbc, (bandBlock_eq_nil_iff _ _).1 hC] at hmem; cases hmem
            | Senior =>
              rw [hbc, (bandBlock_eq_nil_iff _ _).1 hS] at hmem; cases hmem
            | Unknown =>
              rw [hbc, hu] at hmem; cases hmem
        · exact h4
    · rcases bandBlock_unknown_last recs with hnil | hcount
      · exact absurd ((bandBlock_eq_nil_iff recs Band.Unknown).1 hnil) hu
      · rw [hasm]
        constructor
        · intro hl
          rw [List.getLast?_append, hcount] at hl
          simp at hl
        · rintro ⟨-, hcontra⟩
          exact absurd hcontra hu

/-- C1 counterexample: the spec's own scenario (two Adults aged 40 and 24, one
Child aged 3, Senior and Unknown empty) assembles to the claimed row sequence
followed by a trailing blank row, which the claim says must not appear. -/
theorem trailing_blank_counterexample :
    assemble [rA40, rA24, rC3] =
      [OutputRow.dataRow rA40, OutputRow.dataRow rA24,
       OutputRow.countRow Band.Adult 2, OutputRow.blankRow,
       OutputRow.dataRow rC3, OutputRow.countRow Band.Child 1, OutputRow.blankRow] := by
  decide

/-- Witness for `blank_separator_placement` on the fixture list. -/
theorem blank_separator_placement_witness :
    (assemble [rA40, rA24, rC3]).getLast? = some OutputRow.blankRow ↔
      (([rA40, rA24, rC3] : List Record) ≠ [] ∧
        bandRecs [rA40, rA24, rC3] Band.Unknown = []) :=
  (blank_separator_placement [rA40, rA24, rC3]).2

/-! ## Claim C2 -/

/-- C2 (code bug): on `tblC2` detection succeeds, yet the name field and the
phone field resolve to the same column (index 1): column 0 holds IDs whose
digits embed a phone-shaped run, so it wins the initial phone pick; phone is
then re-selected to column 1, but the re-selected column is never added to the
claimed set, so the name pick keeps column 1 as well — violating the
distinct-columns invariant the source's own comment states. -/
theorem detect_duplicate_columns_bug :
    detect_columns tblC2 = Except.ok (1, 1, 0) := by rfl

/-! ## Claim C9 -/

/-- C9 (code bug): on the one-column table `tblC9` the claim requires an error
naming the phone and name fields (no unclaimed column is available for them),
but detection succeeds and returns column 0 for all three fields: when the
re-selection candidate set is empty the stale initial pick — the column already
claimed by ID — is silently kept instead of being marked unresolved. -/
theorem detect_missing_error_bug :
    detect_columns tblC9 = Except.ok (0, 0, 0) := by rfl
